import Mathlib

/-!
Verification of the easyclaw Telegram bridge (`workspace/scripts/telegram-bot.py`
and `workspace/scripts/clawdy-mcp.py`) against its natural-language
specification.  The Python code is shallowly embedded: each relevant source
function becomes an executable Lean definition over explicit state, network
effects become an event trace, and the nondeterminism of the environment
(time, download results, transcription results, delivery success) is passed
in explicitly.
-/

namespace EasyClaw

/-! ## Constants and outbound message texts (verbatim from telegram-bot.py) -/

/-- Constant `FILE_SIZE_LIMIT = 20 * 1024 * 1024` (telegram-bot.py line 69). -/
def FILE_SIZE_LIMIT : Nat := 20 * 1024 * 1024

/-- The oversize rejection text of telegram-bot.py line 354
(`f"⚠️ File too large ({file_size // (1024*1024)} MB). Max is 20 MB."`). -/
def oversizeMsg (size : Nat) : String :=
  "⚠️ File too large (" ++ toString (size / (1024 * 1024)) ++ " MB). Max is 20 MB."

/-- The owner-registration acknowledgement of telegram-bot.py lines 399-403. -/
def welcomeMsg (sender : String) (chat : Int) : String :=
  "✅ Hi " ++ sender ++ "! I've registered your chat as the owner.\nYour Chat ID: " ++
    toString chat ++ "\nMessages here will be forwarded to Clawdy."

/-- The admin notification composed by `request_approval` (telegram-bot.py lines 242-248). -/
def requestApprovalMsg (sender : String) (chat : Int) : String :=
  "🔔 New Telegram chat requesting access to Clawdy:\nName: " ++ sender ++
    "\nChat ID: " ++ toString chat ++
    "\n\nTo allow, add this chat ID to TELEGRAM_ALLOWED_CHATS in .env\nor send: /allow " ++
    toString chat

/-- telegram-bot.py line 416. -/
def unauthorizedMsg : String := "⛔ This chat is not authorized. The owner has been notified."

/-- telegram-bot.py line 426. -/
def throttleMsg : String := "⚠️ Slow down — I can only handle 5 messages per 30 seconds."

/-- telegram-bot.py line 391 (`f"✅ Chat {new_id} added to allowed list."`). -/
def allowAckMsg (tok : String) : String := "✅ Chat " ++ tok ++ " added to allowed list."

/-- telegram-bot.py line 446. -/
def injectFailMsg : String := "⚠️ Failed to reach Clawdy session. Is it running?"

/-! ## Python string helpers used by the `/allow` command handler

Python strings are embedded through their character lists (`String.data`);
the helpers below recurse on those lists. -/

/-- Python `str.startswith` on character lists. -/
def pyStarts : List Char → List Char → Bool
  | _, [] => true
  | [], _ :: _ => false
  | c :: cs, p :: ps => (c == p) && pyStarts cs ps

/-- Python `str.split()` with no separator: split on whitespace runs and
drop the empty pieces.  `acc` holds the characters of the current token in
reverse. -/
def pySplitWsAux : List Char → List Char → List (List Char)
  | [], acc => if acc.isEmpty then [] else [acc.reverse]
  | c :: rest, acc =>
    if c.isWhitespace then
      if acc.isEmpty then pySplitWsAux rest []
      else acc.reverse :: pySplitWsAux rest []
    else pySplitWsAux rest (c :: acc)

/-- Python `str.split()` with no separator. -/
def pySplitWs (l : List Char) : List (List Char) := pySplitWsAux l []

/-- Python `text.split()[-1]` (telegram-bot.py line 387). -/
def pyLastToken (text : String) : List Char :=
  (pySplitWs text.data).getLastD []

/-- Python `new_id.lstrip("-")` (telegram-bot.py line 388). -/
def pyLstripDash (s : List Char) : List Char := s.dropWhile (fun c => c = '-')

/-- Python `str.isdigit` (nonempty, all digits). -/
def pyIsDigit (s : List Char) : Bool := !s.isEmpty && s.all Char.isDigit

/-- The numeric value of a nonempty all-digit token, else `none`. -/
def pyDigits (s : List Char) : Option Nat :=
  if !s.isEmpty && s.all Char.isDigit then
    some (s.foldl (fun a c => 10 * a + (c.toNat - '0'.toNat)) 0)
  else none

/-- Python `int(s)` on a whitespace-free token: optional single sign then
digits; `none` models a `ValueError` (which would crash the bot loop). -/
def pyInt : List Char → Option Int
  | '-' :: rest => (pyDigits rest).map (fun n => -(n : Int))
  | '+' :: rest => (pyDigits rest).map (fun n => (n : Int))
  | s => (pyDigits s).map (fun n => (n : Int))

/-! ## Typing indicator loop (`start_typing`, telegram-bot.py lines 182-207)

The background loop checks, once per tick: the stop-typing marker file, the
absolute deadline (`time.time() >= deadline` with `deadline = start + timeout`),
and the stop event during its 4-second wait.  Time is modelled relative to the
loop's start; `stopFile t` / `stopEvt t` say whether the respective signal is
observed at elapsed time `t`.  The function returns the elapsed time at which
the loop exits; the fuel argument only bounds the recursion. -/
def typingLoopExit (stopFile stopEvt : Nat → Bool) (timeout tick : Nat) :
    Nat → Nat → Nat
  | 0, t => t
  | fuel + 1, t =>
    if stopFile t then t
    else if timeout ≤ t then t
    else if stopEvt t then t
    else typingLoopExit stopFile stopEvt timeout tick fuel (t + tick)

/-- The elapsed time at which a typing session that never receives any stop
signal terminates by itself.  The tick interval is the 4-second
`_stop_typing_event.wait(4)` of telegram-bot.py line 202. -/
def typingAutoStop (timeout : Nat) : Nat :=
  typingLoopExit (fun _ => false) (fun _ => false) timeout 4 (timeout + 1) 0

/-! ## Outbound chunking (`impl_telegram_send`, clawdy-mcp.py lines 236-277)

`chunks = [message[i:i+MAX_LEN] for i in range(0, len(message), MAX_LEN)]`;
the Python string is embedded as its list of characters. -/

/-- Constant `MAX_LEN = 4096` (clawdy-mcp.py line 254). -/
def MAX_LEN : Nat := 4096

/-- The chunk list of clawdy-mcp.py line 255. -/
def pyChunks : List Char → List (List Char)
  | [] => []
  | c :: rest =>
    (c :: rest).take MAX_LEN :: pyChunks ((c :: rest).drop MAX_LEN)
termination_by l => l.length
decreasing_by simp [MAX_LEN]; omega

/-- The send loop of clawdy-mcp.py lines 257-274: one delivery per chunk in
order, aborting after the first chunk whose delivery fails (`ok` says whether
some parse mode succeeded for a given chunk).  Returns the chunks for which a
delivery attempt was made, and whether all of them succeeded. -/
def sendLoop (ok : List Char → Bool) : List (List Char) → (List (List Char) × Bool)
  | [] => ([], true)
  | ch :: rest =>
    if ok ch then
      let r := sendLoop ok rest
      (ch :: r.1, r.2)
    else ([ch], false)

/-- Function `impl_telegram_send` up to its delivery attempts: the guards of
clawdy-mcp.py lines 246-252 (unconfigured token, missing chat id) return
before any chunking; otherwise the chunks are sent in order.  `chatId` is the
chat id after the `get_telegram_chat_id()` fallback. -/
def impl_telegram_send (token : String) (chatId : Option Int)
    (ok : List Char → Bool) (message : List Char) : List (List Char) :=
  if token = "" ∨ token = "your_bot_token_here" then []
  else
    match chatId with
    | none => []
    | some _ => (sendLoop ok (pyChunks message)).1

/-! ## Data model of the poll-loop pipeline (telegram-bot.py `main`, lines 330-446)

An inbound update carries an optional message; a message carries chat id,
sender display name, optional text, optional caption and an optional typed
attachment (the result of `get_file_info`).  The environment of one update
(wall-clock time, download outcome, transcription outcome) is explicit.
Network and filesystem effects are recorded as events. -/

/-- The `(file_id, filename_hint, file_size)` triple returned by
`get_file_info` (telegram-bot.py lines 127-152), plus whether the raw message
had a `"voice"` key (used by the `is_voice` test on line 356). -/
structure Att where
  fileId : String
  hint : String
  size : Nat
  voiceKey : Bool
deriving Repr, DecidableEq

/-- One Telegram message as read on telegram-bot.py lines 342-351. -/
structure Msg where
  chat : Int
  sender : String
  text : String
  caption : String
  att : Option Att
deriving Repr, DecidableEq

/-- One entry of `getUpdates`' result. -/
structure Update where
  updateId : Int
  message : Option Msg
deriving Repr, DecidableEq

/-- The environment one update is processed in: `time.time()` for the rate
limiter, the result of `download_file` (local path, or `none` for any
failure) and of `transcribe_voice`. -/
structure Env where
  now : ℤ
  download : Option String
  transcribe : Option String
deriving Repr, DecidableEq

/-- Observable effects of processing, in program order. -/
inductive Ev where
  /-- `send_message(token, chat, text)` -/
  | send (chat : Int) (text : String)
  /-- the `getFile` API request issued inside `download_file` -/
  | getFile (fileId : String)
  /-- a local file written by `download_file` -/
  | fileCreated (path : String)
  /-- `save_config` persisting the allowed-chats list -/
  | saveConfig (allowed : List Int)
  /-- the `.env` rewrite of telegram-bot.py lines 405-408 -/
  | envUpdated (chat : Int)
  /-- a text admitted past rate limiting and appended to `to_inject`
  (telegram-bot.py line 433) -/
  | queued (chat : Int) (text : String)
  /-- `start_typing(chat_id)` -/
  | startTyping (chat : Int)
  /-- `inject_to_claude(text, sender)` called while handling `chat`'s batch -/
  | injected (chat : Int) (text : String) (sender : String)
  /-- `stop_typing()` -/
  | stopTyping
deriving Repr, DecidableEq

/-- The mutable state of the poll loop: the `offset` cursor, the
`allowed_chats` list of the config, the `_rate_limit` dict and the
per-cycle `to_inject` dict (insertion-ordered association lists). -/
structure LoopState where
  offset : Option Int
  allowed : List Int
  rate : List (Int × List ℤ)
  toInject : List (Int × String × List String)
deriving Repr, DecidableEq

/-! ### Association-list operations mirroring the Python dicts -/

/-- Dict lookup with `[]` default (`_rate_limit.setdefault(chat_id, [])`). -/
def rateGet : List (Int × List ℤ) → Int → List ℤ
  | [], _ => []
  | (k, v) :: rest, c => if k = c then v else rateGet rest c

/-- Dict assignment `_rate_limit[chat_id] = v` (inserts at the end if the key
is new, as a Python dict does). -/
def rateSet : List (Int × List ℤ) → Int → List ℤ → List (Int × List ℤ)
  | [], c, v => [(c, v)]
  | (k, w) :: rest, c, v => if k = c then (c, v) :: rest else (k, w) :: rateSet rest c v

/-- Lookup in `to_inject`. -/
def qGet : List (Int × String × List String) → Int → Option (String × List String)
  | [], _ => none
  | (k, p) :: rest, c => if k = c then some p else qGet rest c

/-- telegram-bot.py lines 431-433: create the chat's entry on first sight
(keeping the first fragment's sender) and append the text. -/
def qAppend : List (Int × String × List String) → Int → String → String →
    List (Int × String × List String)
  | [], c, snd, t => [(c, snd, [t])]
  | (k, s0, ts) :: rest, c, snd, t =>
    if k = c then (k, s0, ts ++ [t]) :: rest else (k, s0, ts) :: qAppend rest c snd t

/-- The keys of `to_inject`, in insertion order. -/
def qKeys (l : List (Int × String × List String)) : List Int := l.map (fun p => p.1)

/-- The texts collected for a chat (empty if the chat has no entry). -/
def qTexts (l : List (Int × String × List String)) (c : Int) : List String :=
  ((qGet l c).map (fun p => p.2)).getD []

/-! ### Attachment resolution (telegram-bot.py lines 346-383)

For a message without text, the code either `continue`s (possibly after
notifying the sender) or falls through to the command/authorization checks
with a substituted text.  `Resolved.skip evs` models a `continue` after
emitting `evs`; `Resolved.proceed text evs` models falling through. -/

/-- The only effects attachment resolution can have: notifications, the
`getFile` request and the local file write.  (In particular it can neither
queue nor inject, which the type makes evident.) -/
inductive ResEv where
  | send (chat : Int) (text : String)
  | getFile (fileId : String)
  | fileCreated (path : String)
deriving Repr, DecidableEq

/-- Embedding of resolution effects into the common event alphabet. -/
def ResEv.toEv : ResEv → Ev
  | .send chat text => .send chat text
  | .getFile fileId => .getFile fileId
  | .fileCreated path => .fileCreated path

inductive Resolved where
  | skip (evs : List ResEv)
  | proceed (text : String) (evs : List ResEv)
deriving Repr, DecidableEq

/-- The events of either `Resolved` outcome. -/
def resolveEvs : Resolved → List Ev
  | .skip evs => evs.map ResEv.toEv
  | .proceed _ evs => evs.map ResEv.toEv

/-- Lines 346-383 of telegram-bot.py.  A message with text proceeds
unchanged; otherwise the attachment (if any) is size-checked, downloaded and,
for voice, transcribed — with the exact notification and fall-through
structure of the source. -/
def resolveText (allowed : List Int) (m : Msg) (env : Env) : Resolved :=
  if m.text = "" then
    match m.att with
    | some a =>
      if m.chat ∈ allowed then
        if a.size ≠ 0 ∧ FILE_SIZE_LIMIT < a.size then
          .skip [.send m.chat (oversizeMsg a.size)]
        else
          let isVoice : Bool := a.hint = "voice.ogg" || a.voiceKey
          let preEvs : List ResEv :=
            [.send m.chat (if isVoice then "🎙️ Transcribing voice message..."
                           else "📥 Downloading " ++ a.hint ++ "..."),
             .getFile a.fileId]
          match env.download with
          | none => .skip (preEvs ++ [.send m.chat "⚠️ Failed to download the file. Try again."])
          | some path =>
            if isVoice then
              match env.transcribe with
              | none => .skip (preEvs ++ [.fileCreated path,
                  .send m.chat "⚠️ Could not transcribe voice message."])
              | some t =>
                .proceed (t ++ (if m.caption ≠ "" then " " ++ m.caption else ""))
                  (preEvs ++ [.fileCreated path])
            else
              .proceed ("[File received from Telegram — use Read tool to view: " ++ path ++ "]" ++
                  (if m.caption ≠ "" then " Caption: " ++ m.caption else ""))
                (preEvs ++ [.fileCreated path])
      else .skip []
    | none =>
      if m.chat ∈ allowed then .skip [.send m.chat "⚠️ Unsupported message type."]
      else .skip []
  else .proceed m.text []

/-! ### Command handling, authorization, rate limiting, queueing
(telegram-bot.py lines 385-433) -/

/-- Lines 385-433 of telegram-bot.py, processing a resolved text for one
update.  Returns `none` exactly when the source would raise an uncaught
exception (`int(new_id)` on a token like `"--5"` that passes the
`lstrip("-").isdigit()` test but is no valid Python integer literal). -/
def processText (s : LoopState) (chat : Int) (sender text : String) (now : ℤ) :
    Option (LoopState × List Ev) :=
  if pyStarts text.data "/allow ".data = true ∧ chat ∈ s.allowed then
    if pyIsDigit (pyLstripDash (pyLastToken text)) = true then
      match pyInt (pyLastToken text) with
      | some n =>
        some ({s with allowed := s.allowed ++ [n]},
              [.saveConfig (s.allowed ++ [n]), .send chat (allowAckMsg (String.mk (pyLastToken text)))])
      | none => none
    else some (s, [])
  else if s.allowed = [] then
    some ({s with allowed := [chat]},
          [.saveConfig [chat], .send chat (welcomeMsg sender chat), .envUpdated chat])
  else if chat ∉ s.allowed then
    some (s, (if s.allowed ≠ [] then
                [.send (s.allowed.headD 0) (requestApprovalMsg sender chat)]
              else []) ++ [.send chat unauthorizedMsg])
  else
    if 5 ≤ ((rateGet s.rate chat).filter (fun t => now - t < 30)).length then
      some ({s with rate := rateSet s.rate chat
                      ((rateGet s.rate chat).filter (fun t => now - t < 30))},
            [.send chat throttleMsg])
    else
      some ({s with rate := rateSet s.rate chat
                      (((rateGet s.rate chat).filter (fun t => now - t < 30)) ++ [now]),
                    toInject := qAppend s.toInject chat sender text},
            [.queued chat text])

/-- One iteration of the `for update in data.get("result", [])` loop
(telegram-bot.py lines 336-433).  The cursor is advanced first,
unconditionally (line 337). -/
def stepUpdate (s : LoopState) (u : Update) (env : Env) : Option (LoopState × List Ev) :=
  match u.message with
  | none => some ({s with offset := some (u.updateId + 1)}, [])
  | some m =>
    match resolveText s.allowed m env with
    | .skip evs => some ({s with offset := some (u.updateId + 1)}, evs.map ResEv.toEv)
    | .proceed text evs =>
      match processText {s with offset := some (u.updateId + 1)} m.chat m.sender text env.now with
      | none => none
      | some (s2, evs2) => some (s2, evs.map ResEv.toEv ++ evs2)

/-- The whole per-update loop over one polling batch. -/
def processUpdates (s : LoopState) : List (Update × Env) → Option (LoopState × List Ev)
  | [] => some (s, [])
  | (u, e) :: rest =>
    match stepUpdate s u e with
    | none => none
    | some (s1, evs1) =>
      match processUpdates s1 rest with
      | none => none
      | some (s2, evs2) => some (s2, evs1 ++ evs2)

/-- The combined text of one chat's batch: `"\n\n".join(batch["texts"])`
(telegram-bot.py line 439). -/
def joinBlank : List String → String
  | [] => ""
  | [t] => t
  | t :: rest => t ++ "\n\n" ++ joinBlank rest

/-- The injection phase (telegram-bot.py lines 438-446): one
`start_typing` + `inject_to_claude` per `to_inject` entry, in dict order;
`injectOk c` is whether the tmux delivery for chat `c`'s batch succeeds. -/
def injectPhase (injectOk : Int → Bool) : List (Int × String × List String) → List Ev
  | [] => []
  | (chat, snd, texts) :: rest =>
    ([.startTyping chat, .injected chat (joinBlank texts) snd] ++
      (if injectOk chat then [] else [.stopTyping, .send chat injectFailMsg])) ++
      injectPhase injectOk rest

/-- One full cycle of the poll loop on a (merged) batch: `to_inject` starts
empty (telegram-bot.py line 334), the batch is processed update by update and
each chat's collected fragments are injected once. -/
def processBatch (injectOk : Int → Bool) (s : LoopState) (batch : List (Update × Env)) :
    Option (LoopState × List Ev) :=
  match processUpdates {s with toInject := []} batch with
  | none => none
  | some (s1, evs) =>
    some ({s1 with toInject := []}, evs ++ injectPhase injectOk s1.toInject)

/-! ### Event-trace observers -/

/-- The texts queued for chat `c`, in order. -/
def queuedTexts : List Ev → Int → List String
  | [], _ => []
  | .queued c' t :: evs, c =>
    if c' = c then t :: queuedTexts evs c else queuedTexts evs c
  | .send _ _ :: evs, c => queuedTexts evs c
  | .getFile _ :: evs, c => queuedTexts evs c
  | .fileCreated _ :: evs, c => queuedTexts evs c
  | .saveConfig _ :: evs, c => queuedTexts evs c
  | .envUpdated _ :: evs, c => queuedTexts evs c
  | .startTyping _ :: evs, c => queuedTexts evs c
  | .injected _ _ _ :: evs, c => queuedTexts evs c
  | .stopTyping :: evs, c => queuedTexts evs c

/-- The `(text, sender)` pairs injected for chat `c`, in order. -/
def injEvents : List Ev → Int → List (String × String)
  | [], _ => []
  | .injected c' t snd :: evs, c =>
    if c' = c then (t, snd) :: injEvents evs c else injEvents evs c
  | .queued _ _ :: evs, c => injEvents evs c
  | .send _ _ :: evs, c => injEvents evs c
  | .getFile _ :: evs, c => injEvents evs c
  | .fileCreated _ :: evs, c => injEvents evs c
  | .saveConfig _ :: evs, c => injEvents evs c
  | .envUpdated _ :: evs, c => injEvents evs c
  | .startTyping _ :: evs, c => injEvents evs c
  | .stopTyping :: evs, c => injEvents evs c

/-- Number of occurrences of one exact event. -/
def countEv (evs : List Ev) (e : Ev) : Nat := evs.countP (fun x => x = e)

/-- The update ids of a batch, in arrival order. -/
def batchIds (batch : List (Update × Env)) : List Int :=
  batch.map (fun p => p.1.updateId)

/-! ## C1: the two-caller injection interleaving model

`inject_to_claude` (telegram-bot.py lines 219-237) and the bridge handler's
`do_POST` (lines 490-501) each deliver two tmux `send-keys` calls — the
display line and, after the 0.3 s settle delay, the submit — with no lock or
other synchronization between the main poll-loop thread and the HTTP server
thread.  The downstream session therefore sees some interleaving of the two
keystroke sequences. -/

/-- The display line composed by `inject_to_claude` (telegram-bot.py line 222). -/
def displayLine (sender ts text : String) : String :=
  "[TELEGRAM from " ++ sender ++ " | " ++ ts ++ "]: " ++ text

/-- The display line composed by the bridge handler (telegram-bot.py line 490). -/
def peerDisplayLine (sender ts message : String) : String :=
  "[PEER from " ++ sender ++ " | " ++ ts ++ "]: " ++ message

/-- One keystroke delivery to the downstream tmux session, tagged with the
issuing caller (0: poll loop, 1: peer bridge listener). -/
inductive Keystroke where
  | content (caller : Nat) (text : String)
  | submit (caller : Nat)
deriving Repr, DecidableEq

/-- The keystroke sequence of one injection: the display line, then the
submit (`"" , Enter`) sent after the fixed settle delay. -/
def injectKeys (caller : Nat) (line : String) : List Keystroke :=
  [.content caller line, .submit caller]

/-- Relation `Merge a b t`: `t` is an interleaving of `a` and `b`, each kept in
order.  Because the source takes no lock around either injection pair, every
such interleaving is a possible downstream trace. -/
inductive Merge {α : Type} : List α → List α → List α → Prop where
  | nil : Merge [] [] []
  | left : ∀ {x : α} {xs ys zs : List α}, Merge xs ys zs → Merge (x :: xs) ys (x :: zs)
  | right : ∀ {y : α} {xs ys zs : List α}, Merge xs ys zs → Merge xs (y :: ys) (y :: zs)

/-- A downstream trace is serialized when every display line is immediately
followed by its own caller's submit keystroke. -/
def serializedRun : List Keystroke → Bool
  | [] => true
  | .content c _ :: .submit c' :: rest => (c == c') && serializedRun rest
  | _ => false

/-! ## Helper lemmas about the trace observers and dict operations -/

theorem queuedTexts_append (a b : List Ev) (c : Int) :
    queuedTexts (a ++ b) c = queuedTexts a c ++ queuedTexts b c := by
  induction a with
  | nil => simp [queuedTexts]
  | cons e rest ih =>
    cases e <;> simp only [List.cons_append, queuedTexts] <;>
      first
        | exact ih
        | (split <;> simp [ih])

theorem injEvents_append (a b : List Ev) (c : Int) :
    injEvents (a ++ b) c = injEvents a c ++ injEvents b c := by
  induction a with
  | nil => simp [injEvents]
  | cons e rest ih =>
    cases e <;> simp only [List.cons_append, injEvents] <;>
      first
        | exact ih
        | (split <;> simp [ih])

theorem countEv_append (a b : List Ev) (e : Ev) :
    countEv (a ++ b) e = countEv a e + countEv b e := by
  simp [countEv, List.countP_append]

theorem qGet_qAppend_ne {c' c : Int} (hne : ¬ c' = c)
    (l : List (Int × String × List String)) (snd t : String) :
    qGet (qAppend l c snd t) c' = qGet l c' := by
  induction l with
  | nil =>
    have h2 : ¬ c = c' := fun e => hne e.symm
    simp [qAppend, qGet, h2]
  | cons hd rest ih =>
    obtain ⟨k, s0, ts⟩ := hd
    by_cases hk : k = c
    · subst hk
      have h2 : ¬ k = c' := fun e => hne e.symm
      simp [qAppend, qGet, h2]
    · by_cases hc : k = c' <;> simp [qAppend, qGet, hk, hc, hne, ih]

theorem qGet_qAppend_self (l : List (Int × String × List String))
    (c : Int) (snd t : String) :
    qGet (qAppend l c snd t) c =
      some (((qGet l c).map (fun p => p.1)).getD snd, qTexts l c ++ [t]) := by
  induction l with
  | nil => simp [qAppend, qGet, qTexts]
  | cons hd rest ih =>
    obtain ⟨k, s0, ts⟩ := hd
    by_cases hk : k = c
    · subst hk; simp [qAppend, qGet, qTexts]
    · simp [qAppend, qGet, qTexts, hk, ih]

theorem qTexts_qAppend (l : List (Int × String × List String))
    (c : Int) (snd t : String) (c' : Int) :
    qTexts (qAppend l c snd t) c' = qTexts l c' ++ (if c' = c then [t] else []) := by
  by_cases h : c' = c
  · subst h; simp [qTexts, qGet_qAppend_self, qTexts]
  · simp [qTexts, qGet_qAppend_ne h, h]

theorem qKeys_qAppend (l : List (Int × String × List String)) (c : Int) (snd t : String) :
    qKeys (qAppend l c snd t) = if c ∈ qKeys l then qKeys l else qKeys l ++ [c] := by
  induction l with
  | nil => simp [qAppend, qKeys]
  | cons hd rest ih =>
    obtain ⟨k, s0, ts⟩ := hd
    by_cases hk : k = c
    · subst hk; simp [qAppend, qKeys]
    · have hck : ¬ c = k := fun e => hk e.symm
      simp only [qAppend, if_neg hk, qKeys, List.map_cons] at ih ⊢
      rw [ih]
      by_cases hm : c ∈ List.map (fun p => p.1) rest <;>
        simp [List.mem_cons, hck, hm]

theorem qKeys_nodup_qAppend {l : List (Int × String × List String)}
    (hnd : (qKeys l).Nodup) (c : Int) (snd t : String) :
    (qKeys (qAppend l c snd t)).Nodup := by
  rw [qKeys_qAppend]
  by_cases hm : c ∈ qKeys l
  · simpa [hm]
  · simp only [hm, if_false]
    exact List.nodup_append.mpr ⟨hnd, List.nodup_singleton c, by simpa using hm⟩

theorem qGet_eq_none_of_not_mem {l : List (Int × String × List String)} {c : Int}
    (h : c ∉ qKeys l) : qGet l c = none := by
  induction l with
  | nil => simp [qGet]
  | cons hd rest ih =>
    obtain ⟨k, s0, ts⟩ := hd
    simp only [qKeys, List.map_cons, List.mem_cons] at h
    push_neg at h
    have hk : ¬ k = c := fun e => h.1 e.symm
    simp only [qGet, if_neg hk]
    exact ih (by simpa [qKeys] using h.2)

theorem qTexts_of_qGet {l : List (Int × String × List String)} {c : Int}
    {p : String × List String} (h : qGet l c = some p) : qTexts l c = p.2 := by
  simp [qTexts, h]

theorem rateGet_rateSet (r : List (Int × List ℤ)) (c : Int) (v : List ℤ) (c' : Int) :
    rateGet (rateSet r c v) c' = if c' = c then v else rateGet r c' := by
  induction r with
  | nil =>
    by_cases h : c' = c
    · subst h; simp [rateSet, rateGet]
    · have h2 : ¬ c = c' := fun e => h e.symm
      simp [rateSet, rateGet, h, h2]
  | cons hd rest ih =>
    obtain ⟨k, w⟩ := hd
    by_cases hk : k = c
    · subst hk
      by_cases hc : c' = k
      · subst hc; simp [rateSet, rateGet]
      · have h2 : ¬ k = c' := fun e => hc e.symm
        simp [rateSet, rateGet, hc, h2]
    · by_cases hc : k = c'
      · have h2 : ¬ c' = c := fun e => hk (hc.trans e)
        simp [rateSet, rateGet, hk, hc, h2]
      · simp [rateSet, rateGet, hk, hc, ih]

/-- Attachment resolution emits only notifications and download effects:
never a `queued` or an `injected` event. -/
theorem resEv_clean (l : List ResEv) (c : Int) :
    queuedTexts (l.map ResEv.toEv) c = [] ∧ injEvents (l.map ResEv.toEv) c = [] := by
  induction l with
  | nil => simp [queuedTexts, injEvents]
  | cons e rest ih => cases e <;> simpa [ResEv.toEv, queuedTexts, injEvents] using ih

/-- What one `processText` call can do to the state and the trace:
it never injects, its queued texts are exactly what it adds to `to_inject`,
`to_inject` keys stay duplicate-free, the cursor is untouched, and the
allowed list only grows — a new entry coming either from the
empty-registry bootstrap or from a well-formed `/allow` naming it. -/
theorem processText_props {s : LoopState} {chat : Int} {snd text : String} {now : ℤ}
    {s' : LoopState} {evs : List Ev}
    (h : processText s chat snd text now = some (s', evs)) :
    s'.offset = s.offset ∧
    (∀ c, injEvents evs c = []) ∧
    (∀ c, qTexts s'.toInject c = qTexts s.toInject c ++ queuedTexts evs c) ∧
    ((qKeys s.toInject).Nodup → (qKeys s'.toInject).Nodup) ∧
    (∃ app, s'.allowed = s.allowed ++ app) ∧
    (∀ c, c ∈ s'.allowed → c ∉ s.allowed →
      (s.allowed = [] ∧ c = chat) ∨
      (chat ∈ s.allowed ∧ pyStarts text.data "/allow ".data = true ∧
        pyInt (pyLastToken text) = some c)) := by
  unfold processText at h
  split at h
  case isTrue hcond =>
    split at h
    case isTrue hdig =>
      cases hpi : pyInt (pyLastToken text) with
      | none => rw [hpi] at h; exact absurd h (by simp)
      | some n =>
        rw [hpi] at h
        rw [Option.some.injEq, Prod.mk.injEq] at h
        obtain ⟨hs, he⟩ := h
        subst hs; subst he
        refine ⟨rfl, by simp [injEvents], by simp [queuedTexts, qTexts],
          fun hn => hn, ⟨[n], rfl⟩, ?_⟩
        intro c hc hcn
        rcases List.mem_append.mp hc with hmem | hmem
        · exact absurd hmem hcn
        · obtain rfl : c = n := List.mem_singleton.mp hmem
          exact Or.inr ⟨hcond.2, hcond.1, rfl⟩
    case isFalse hdig =>
      rw [Option.some.injEq, Prod.mk.injEq] at h
      obtain ⟨hs, he⟩ := h
      subst hs; subst he
      exact ⟨rfl, by simp [injEvents], by simp [queuedTexts, qTexts],
        fun hn => hn, ⟨[], by simp⟩, fun c hc hcn => absurd hc hcn⟩
  case isFalse hcond =>
    split at h
    case isTrue hemp =>
      rw [Option.some.injEq, Prod.mk.injEq] at h
      obtain ⟨hs, he⟩ := h
      subst hs; subst he
      refine ⟨rfl, by simp [injEvents], by simp [queuedTexts, qTexts],
        fun hn => hn, ⟨[chat], by simp [hemp]⟩, ?_⟩
      intro c hc hcn
      exact Or.inl ⟨hemp, by simpa using hc⟩
    case isFalse hemp =>
      split at h
      case isTrue hnm =>
        rw [Option.some.injEq, Prod.mk.injEq] at h
        obtain ⟨hs, he⟩ := h
        subst hs; subst he
        refine ⟨rfl, ?_, ?_, fun hn => hn, ⟨[], by simp⟩, fun c hc hcn => absurd hc hcn⟩
        · intro c
          simp [injEvents_append, hemp, injEvents]
        · intro c
          simp [queuedTexts_append, hemp, queuedTexts, qTexts]
      case isFalse hnm =>
        split at h
        case isTrue hfull =>
          rw [Option.some.injEq, Prod.mk.injEq] at h
          obtain ⟨hs, he⟩ := h
          subst hs; subst he
          exact ⟨rfl, by simp [injEvents], by simp [queuedTexts, qTexts],
            fun hn => hn, ⟨[], by simp⟩, fun c hc hcn => absurd hc hcn⟩
        case isFalse hfull =>
          rw [Option.some.injEq, Prod.mk.injEq] at h
          obtain ⟨hs, he⟩ := h
          subst hs; subst he
          refine ⟨rfl, by simp [injEvents], ?_,
            fun hn => qKeys_nodup_qAppend hn chat snd text,
            ⟨[], by simp⟩, fun c hc hcn => absurd hc hcn⟩
          intro c
          rw [qTexts_qAppend]
          by_cases hc : c = chat
          · subst hc; simp [queuedTexts]
          · have h2 : ¬ chat = c := fun e => hc e.symm
            simp [queuedTexts, hc, h2]

/-- What one loop iteration can do: the cursor is always set to the update's
id + 1 (independently of every processing outcome); no injection happens; the
queued texts match the growth of `to_inject`; and the allowed list only
grows, with the provenance of any new entry pinned down. -/
theorem step_props {s : LoopState} {u : Update} {env : Env}
    {s' : LoopState} {evs : List Ev}
    (h : stepUpdate s u env = some (s', evs)) :
    s'.offset = some (u.updateId + 1) ∧
    (∀ c, injEvents evs c = []) ∧
    (∀ c, qTexts s'.toInject c = qTexts s.toInject c ++ queuedTexts evs c) ∧
    ((qKeys s.toInject).Nodup → (qKeys s'.toInject).Nodup) ∧
    (∃ app, s'.allowed = s.allowed ++ app) ∧
    (∀ c, c ∈ s'.allowed → c ∉ s.allowed →
      (s.allowed = [] ∧ ∃ m, u.message = some m ∧ c = m.chat) ∨
      (∃ m t evs0, u.message = some m ∧ m.chat ∈ s.allowed ∧
        resolveText s.allowed m env = Resolved.proceed t evs0 ∧
        pyStarts t.data "/allow ".data = true ∧ pyInt (pyLastToken t) = some c)) := by
  obtain ⟨off, al, r, q⟩ := s
  obtain ⟨uid, msg⟩ := u
  cases msg with
  | none =>
    simp only [stepUpdate, Option.some.injEq, Prod.mk.injEq] at h
    obtain ⟨hs, he⟩ := h
    subst hs; subst he
    exact ⟨rfl, by simp [injEvents], by simp [queuedTexts],
      fun hn => hn, ⟨[], by simp⟩, fun c hc hcn => absurd hc hcn⟩
  | some m =>
    simp only [stepUpdate] at h
    cases hr : resolveText al m env with
    | skip evs0 =>
      rw [hr] at h
      simp only [Option.some.injEq, Prod.mk.injEq] at h
      obtain ⟨hs, he⟩ := h
      subst hs; subst he
      refine ⟨rfl, fun c => (resEv_clean evs0 c).2,
        fun c => by simp [(resEv_clean evs0 c).1],
        fun hn => hn, ⟨[], by simp⟩, fun c hc hcn => absurd hc hcn⟩
    | proceed t evs0 =>
      rw [hr] at h
      dsimp only at h
      cases hp : processText ⟨some (uid + 1), al, r, q⟩ m.chat m.sender t env.now with
      | none => rw [hp] at h; exact absurd h (by simp)
      | some pr =>
        obtain ⟨s2, evs2⟩ := pr
        rw [hp] at h
        simp only [Option.some.injEq, Prod.mk.injEq] at h
        obtain ⟨hs, he⟩ := h
        subst hs; subst he
        obtain ⟨hoff, hinj, hq, hnd, hgrow, hprov⟩ := processText_props hp
        refine ⟨hoff, ?_, ?_, hnd, hgrow, ?_⟩
        · intro c
          rw [injEvents_append, (resEv_clean evs0 c).2, hinj c]
          simp
        · intro c
          rw [queuedTexts_append, (resEv_clean evs0 c).1]
          simpa using hq c
        · intro c hc hcn
          rcases hprov c hc hcn with ⟨hemp, hcc⟩ | ⟨hmem, hsw, hpi⟩
          · exact Or.inl ⟨hemp, m, rfl, hcc⟩
          · exact Or.inr ⟨m, t, evs0, rfl, hmem, hr, hsw, hpi⟩

/-- Function `processUpdates` over a whole batch: no injections are emitted during the
collection phase, `to_inject` collects exactly the queued texts, keys stay
duplicate-free, and the allowed list grows monotonically. -/
theorem batch_props {bs : List (Update × Env)} :
    ∀ {s s' : LoopState} {evs : List Ev},
    processUpdates s bs = some (s', evs) →
    (∀ c, injEvents evs c = []) ∧
    (∀ c, qTexts s'.toInject c = qTexts s.toInject c ++ queuedTexts evs c) ∧
    ((qKeys s.toInject).Nodup → (qKeys s'.toInject).Nodup) ∧
    (∃ app, s'.allowed = s.allowed ++ app) := by
  induction bs with
  | nil =>
    intro s s' evs h
    simp only [processUpdates, Option.some.injEq, Prod.mk.injEq] at h
    obtain ⟨hs, he⟩ := h
    subst hs; subst he
    exact ⟨fun c => by simp [injEvents], fun c => by simp [queuedTexts],
      fun hn => hn, ⟨[], by simp⟩⟩
  | cons ue rest ih =>
    intro s s' evs h
    obtain ⟨u, e⟩ := ue
    simp only [processUpdates] at h
    cases h1 : stepUpdate s u e with
    | none => rw [h1] at h; exact absurd h (by simp)
    | some p1 =>
      obtain ⟨s1, evs1⟩ := p1
      rw [h1] at h
      dsimp only at h
      cases h2 : processUpdates s1 rest with
      | none => rw [h2] at h; exact absurd h (by simp)
      | some p2 =>
        obtain ⟨s2, evs2⟩ := p2
        rw [h2] at h
        simp only [Option.some.injEq, Prod.mk.injEq] at h
        obtain ⟨hs, he⟩ := h
        subst hs; subst he
        obtain ⟨_, hinj1, hq1, hnd1, hgrow1, _⟩ := step_props h1
        obtain ⟨hinj2, hq2, hnd2, hgrow2⟩ := ih h2
        refine ⟨?_, ?_, fun hn => hnd2 (hnd1 hn), ?_⟩
        · intro c
          rw [injEvents_append, hinj1 c, hinj2 c]
          simp
        · intro c
          rw [queuedTexts_append, hq2 c, hq1 c, List.append_assoc]
        · obtain ⟨a1, ha1⟩ := hgrow1
          obtain ⟨a2, ha2⟩ := hgrow2
          exact ⟨a1 ++ a2, by rw [ha2, ha1, List.append_assoc]⟩

/-- The injection phase emits no `queued` events. -/
theorem queuedTexts_injectPhase (ok : Int → Bool)
    (l : List (Int × String × List String)) (c : Int) :
    queuedTexts (injectPhase ok l) c = [] := by
  induction l with
  | nil => simp [injectPhase, queuedTexts]
  | cons hd rest ih =>
    obtain ⟨chat, snd, ts⟩ := hd
    rw [show injectPhase ok ((chat, snd, ts) :: rest) =
          ([.startTyping chat, .injected chat (joinBlank ts) snd] ++
            (if ok chat then [] else [.stopTyping, .send chat injectFailMsg])) ++
            injectPhase ok rest from rfl]
    rw [queuedTexts_append, queuedTexts_append, ih]
    split <;> simp [queuedTexts]

/-- The injection phase emits nothing for a chat with no `to_inject` entry. -/
theorem injEvents_injectPhase_not_mem (ok : Int → Bool)
    {l : List (Int × String × List String)} {c : Int} (h : c ∉ qKeys l) :
    injEvents (injectPhase ok l) c = [] := by
  induction l with
  | nil => simp [injectPhase, injEvents]
  | cons hd rest ih =>
    obtain ⟨chat, snd, ts⟩ := hd
    simp only [qKeys, List.map_cons, List.mem_cons] at h
    push_neg at h
    have hck : ¬ chat = c := fun e => h.1 e.symm
    rw [show injectPhase ok ((chat, snd, ts) :: rest) =
          ([.startTyping chat, .injected chat (joinBlank ts) snd] ++
            (if ok chat then [] else [.stopTyping, .send chat injectFailMsg])) ++
            injectPhase ok rest from rfl]
    rw [injEvents_append, injEvents_append, ih (by simpa [qKeys] using h.2)]
    split <;> simp [injEvents, hck]

/-- The injection phase makes exactly one injection per `to_inject` entry:
for chat `c` it is the blank-line join of `c`'s collected texts, attributed
to the first fragment's sender. -/
theorem injEvents_injectPhase (ok : Int → Bool)
    {l : List (Int × String × List String)} (hnd : (qKeys l).Nodup) (c : Int) :
    injEvents (injectPhase ok l) c =
      match qGet l c with
      | some p => [(joinBlank p.2, p.1)]
      | none => [] := by
  induction l with
  | nil => simp [injectPhase, injEvents, qGet]
  | cons hd rest ih =>
    obtain ⟨chat, snd, ts⟩ := hd
    simp only [qKeys, List.map_cons, List.nodup_cons] at hnd
    rw [show injectPhase ok ((chat, snd, ts) :: rest) =
          ([.startTyping chat, .injected chat (joinBlank ts) snd] ++
            (if ok chat then [] else [.stopTyping, .send chat injectFailMsg])) ++
            injectPhase ok rest from rfl]
    rw [injEvents_append, injEvents_append]
    by_cases hc : chat = c
    · subst hc
      rw [injEvents_injectPhase_not_mem ok (by simpa [qKeys] using hnd.1)]
      simp only [qGet, if_pos rfl]
      split <;> simp [injEvents]
    · rw [ih (by simpa [qKeys] using hnd.2)]
      simp only [qGet, if_neg hc]
      split <;> simp [injEvents, hc]

/-- Claim C2: in every poll batch, a chat with two or more admitted text
fragments (the `queued` events) gets exactly one injection, whose text is the
fragments joined in arrival order by a blank line. -/
theorem c2_coalesced_batch_single_injection
    {ok : Int → Bool} {s s' : LoopState} {batch : List (Update × Env)}
    {evs : List Ev} {c : Int}
    (h : processBatch ok s batch = some (s', evs))
    (hlen : 2 ≤ (queuedTexts evs c).length) :
    ∃ snd, injEvents evs c =
      [(joinBlank (queuedTexts evs c), snd)] := by
  unfold processBatch at h
  cases hu : processUpdates {s with toInject := []} batch with
  | none => rw [hu] at h; exact absurd h (by simp)
  | some p =>
    obtain ⟨s1, evsU⟩ := p
    rw [hu] at h; dsimp only at h
    simp only [Option.some.injEq, Prod.mk.injEq] at h
    obtain ⟨hs, he⟩ := h
    subst hs; subst he
    obtain ⟨hinj, hq, hnd, _⟩ := batch_props hu
    have hndk : (qKeys s1.toInject).Nodup := hnd (by simp [qKeys])
    have hq1 : qTexts s1.toInject c = queuedTexts evsU c := by
      have := hq c
      simpa [qTexts, qGet] using this
    have hqevs : queuedTexts (evsU ++ injectPhase ok s1.toInject) c = queuedTexts evsU c := by
      rw [queuedTexts_append, queuedTexts_injectPhase]
      simp
    rw [hqevs] at hlen ⊢
    have hievs : injEvents (evsU ++ injectPhase ok s1.toInject) c =
        injEvents (injectPhase ok s1.toInject) c := by
      rw [injEvents_append, hinj c]
      simp
    rw [hievs, injEvents_injectPhase ok hndk c]
    cases hget : qGet s1.toInject c with
    | none =>
      rw [qTexts, hget] at hq1
      simp at hq1
      rw [hq1] at hlen
      exact absurd hlen (by simp)
    | some p =>
      obtain ⟨snd0, ts⟩ := p
      have hts : ts = queuedTexts evsU c := by
        have := qTexts_of_qGet hget
        rw [hq1] at this
        exact this.symm
      exact ⟨snd0, by simp [joinBlank, hts]⟩

/-- Claim C3: the cursor is set to (update id + 1) after reading each update,
whatever the processing outcome; over a batch of strictly increasing ids at
or above the current cursor, the cursor never decreases and every consumed id
stays below the final cursor (so it is never revisited by a later poll that
asks for ids at or above the cursor). -/
theorem c3_cursor_monotone_no_revisit :
    (∀ (s : LoopState) (u : Update) (env : Env) (s' : LoopState) (evs : List Ev),
      stepUpdate s u env = some (s', evs) → s'.offset = some (u.updateId + 1)) ∧
    (∀ (batch : List (Update × Env)) (s s' : LoopState) (evs : List Ev) (o : Int),
      s.offset = some o →
      (batchIds batch).Pairwise (· < ·) →
      (∀ i ∈ batchIds batch, o ≤ i) →
      processUpdates s batch = some (s', evs) →
      ∃ o', s'.offset = some o' ∧ o ≤ o' ∧ ∀ i ∈ batchIds batch, i < o') := by
  constructor
  · intro s u env s' evs h
    exact (step_props h).1
  · intro batch
    induction batch with
    | nil =>
      intro s s' evs o hoff _ _ h
      simp only [processUpdates, Option.some.injEq, Prod.mk.injEq] at h
      obtain ⟨hs, he⟩ := h
      subst hs
      exact ⟨o, hoff, le_refl o, by simp [batchIds]⟩
    | cons ue rest ih =>
      intro s s' evs o hoff hsort hge h
      obtain ⟨u, e⟩ := ue
      simp only [processUpdates] at h
      cases h1 : stepUpdate s u e with
      | none => rw [h1] at h; exact absurd h (by simp)
      | some p1 =>
        obtain ⟨s1, evs1⟩ := p1
        rw [h1] at h; dsimp only at h
        cases h2 : processUpdates s1 rest with
        | none => rw [h2] at h; exact absurd h (by simp)
        | some p2 =>
          obtain ⟨s2, evs2⟩ := p2
          rw [h2] at h
          simp only [Option.some.injEq, Prod.mk.injEq] at h
          obtain ⟨hs, he⟩ := h
          subst hs
          have hoff1 : s1.offset = some (u.updateId + 1) := (step_props h1).1
          simp only [batchIds, List.map_cons, List.pairwise_cons] at hsort
          have hge1 : ∀ i ∈ batchIds rest, u.updateId + 1 ≤ i := by
            intro i hi
            have := hsort.1 i hi
            omega
          obtain ⟨o', ho', hle, hlt⟩ := ih s1 s2 evs2 (u.updateId + 1) hoff1 hsort.2 hge1 h2
          refine ⟨o', ho', ?_, ?_⟩
          · have : o ≤ u.updateId := hge u.updateId (by simp [batchIds])
            omega
          · intro i hi
            simp only [batchIds, List.map_cons, List.mem_cons] at hi
            rcases hi with rfl | hi
            · omega
            · exact hlt i hi

/-- Claim C6: the allow-list only grows (per update and over every batch),
and any id that appears beyond the previous list came either from the
empty-registry bootstrap (it is the sender's chat id) or from a `/allow`
command whose issuing chat was already allowed and whose last token names the
new id. -/
theorem c6_allowlist_grows_only :
    (∀ (s : LoopState) (u : Update) (env : Env) (s' : LoopState) (evs : List Ev),
      stepUpdate s u env = some (s', evs) →
      (∃ app, s'.allowed = s.allowed ++ app) ∧
      (∀ c, c ∈ s'.allowed → c ∉ s.allowed →
        (s.allowed = [] ∧ ∃ m, u.message = some m ∧ c = m.chat) ∨
        (∃ m t evs0, u.message = some m ∧ m.chat ∈ s.allowed ∧
          resolveText s.allowed m env = Resolved.proceed t evs0 ∧
          pyStarts t.data "/allow ".data = true ∧ pyInt (pyLastToken t) = some c))) ∧
    (∀ (batch : List (Update × Env)) (s s' : LoopState) (evs : List Ev),
      processUpdates s batch = some (s', evs) →
      ∃ app, s'.allowed = s.allowed ++ app) := by
  constructor
  · intro s u env s' evs h
    exact ⟨(step_props h).2.2.2.2.1, (step_props h).2.2.2.2.2⟩
  · intro batch s s' evs h
    exact (batch_props h).2.2.2

/-- Claim C7, counterexample: a NON-text message (here: a document) from a
chat that is not on the non-empty allow-list is dropped with no event at all
— no notification to the sender and none to the owner (telegram-bot.py line
383 is a bare `continue`).  This refutes "this holds for every message shape,
text or not". -/
theorem c7_counterexample_nontext_dropped :
    stepUpdate ⟨none, [1], [], []⟩
        ⟨10, some ⟨99, "Mallory", "", "", some ⟨"f1", "report.pdf", 1000, false⟩⟩⟩
        ⟨0, none, none⟩ =
      some (⟨some 11, [1], [], []⟩, ([] : List Ev)) ∧
    (99 : Int) ∉ ([1] : List Int) ∧ ([1] : List Int) ≠ [] :=
  ⟨rfl, by decide, by decide⟩

/-- Claim C7 (amended): for every inbound TEXT message from a chat not on
the non-empty allow-list, the owner (first allowed chat) gets the approval
request — whose text carries the requesting chat's display name and id — and
the sender is told the chat is unauthorized; nothing is queued or injected
for it.  (Non-text messages from unauthorized chats are silently dropped,
see the counterexample.) -/
theorem c7_unauthorized_text_notifies
    {s : LoopState} {u : Update} {env : Env} {m : Msg}
    (hm : u.message = some m) (ht : ¬ m.text = "")
    (hne : s.allowed ≠ []) (hnm : m.chat ∉ s.allowed) :
    stepUpdate s u env =
      some ({s with offset := some (u.updateId + 1)},
        [Ev.send (s.allowed.headD 0) (requestApprovalMsg m.sender m.chat),
         Ev.send m.chat unauthorizedMsg]) ∧
    (∃ pre mid post : String,
      requestApprovalMsg m.sender m.chat =
        pre ++ m.sender ++ mid ++ toString m.chat ++ post) := by
  constructor
  · obtain ⟨off, al, r, q⟩ := s
    obtain ⟨uid, msg⟩ := u
    dsimp only at hm hne hnm ⊢
    subst hm
    simp [stepUpdate, resolveText, processText, ht, hne, hnm]
  · exact ⟨"🔔 New Telegram chat requesting access to Clawdy:\nName: ",
      "\nChat ID: ",
      "\n\nTo allow, add this chat ID to TELEGRAM_ALLOWED_CHATS in .env\nor send: /allow " ++
        toString m.chat,
      by simp [requestApprovalMsg, String.append_assoc]⟩

/-- Claim C8: an attachment whose declared size exceeds the 20 MB limit is
rejected before any download: the only event is the oversize notification to
the sender — no `getFile` request, no local file, nothing queued or
injected. -/
theorem c8_oversize_rejected_before_download
    {s : LoopState} {u : Update} {env : Env} {m : Msg} {a : Att}
    (hm : u.message = some m) (ht : m.text = "") (ha : m.att = some a)
    (hmem : m.chat ∈ s.allowed) (hsize : FILE_SIZE_LIMIT < a.size) :
    stepUpdate s u env =
      some ({s with offset := some (u.updateId + 1)},
        [Ev.send m.chat (oversizeMsg a.size)]) := by
  have h0 : a.size ≠ 0 := by
    intro he
    rw [he] at hsize
    exact absurd hsize (by simp [FILE_SIZE_LIMIT])
  obtain ⟨off, al, r, q⟩ := s
  obtain ⟨uid, msg⟩ := u
  dsimp only at hm hmem ⊢
  subst hm
  simp [stepUpdate, resolveText, ht, ha, hmem, h0, hsize, ResEv.toEv]

/-- Claim C9: a typing session with the default 90-second deadline and no
stop signal of either kind terminates by itself, at elapsed time 92 — within
one 4-second tick interval after the 90-second deadline. -/
theorem c9_typing_deadline_selfstop :
    typingAutoStop 90 = 92 ∧ 90 ≤ typingAutoStop 90 ∧ typingAutoStop 90 ≤ 90 + 4 := by
  decide

/-! ## C10 helper lemmas -/

theorem pyChunks_join (l : List Char) : (pyChunks l).flatten = l := by
  induction l using pyChunks.induct with
  | case1 => simp [pyChunks]
  | case2 c rest ih =>
    rw [pyChunks]
    simp only [List.flatten_cons, ih]
    exact List.take_append_drop MAX_LEN (c :: rest)

theorem pyChunks_mem {l ch : List Char} (h : ch ∈ pyChunks l) :
    ch.length ≤ MAX_LEN ∧ ch ≠ [] := by
  induction l using pyChunks.induct with
  | case1 => simp [pyChunks] at h
  | case2 c rest ih =>
    rw [pyChunks] at h
    rcases List.mem_cons.mp h with rfl | h2
    · refine ⟨by simp, ?_⟩
      simp [MAX_LEN, List.take_cons]
    · exact ih h2

theorem sendLoop_all_ok (ok : List Char → Bool) (h : ∀ ch, ok ch = true) :
    ∀ cs : List (List Char), sendLoop ok cs = (cs, true) := by
  intro cs
  induction cs with
  | nil => rfl
  | cons c rest ih => simp [sendLoop, h c, ih]

/-- Claim C10: with a configured token and chat id and successful delivery,
`impl_telegram_send` makes exactly one delivery attempt per chunk, in order;
the chunks concatenate back to the original message and each holds at most
4096 characters — no content is lost or reordered by chunking. -/
theorem c10_telegram_send_chunking
    (token : String) (cid : Int) (ok : List Char → Bool) (message : List Char)
    (htok : ¬ (token = "" ∨ token = "your_bot_token_here"))
    (hok : ∀ ch, ok ch = true) :
    impl_telegram_send token (some cid) ok message = pyChunks message ∧
    (pyChunks message).flatten = message ∧
    (∀ ch ∈ pyChunks message, ch.length ≤ MAX_LEN ∧ ch ≠ []) := by
  refine ⟨?_, pyChunks_join message, fun ch hch => pyChunks_mem hch⟩
  simp [impl_telegram_send, htok, sendLoop_all_ok ok hok]

/-- Claim C1, counterexample: with no lock in the source, the trace in which
the peer bridge's display line falls between the poll loop's display line
and its submit is a legal interleaving of the two injection sequences, and it
is not serialized. -/
theorem c1_counterexample_interleaving :
    Merge (injectKeys 0 (displayLine "Alice" "2025-01-01 00:00" "hi"))
          (injectKeys 1 (peerDisplayLine "Peer" "2025-01-01 00:00" "ping"))
          [Keystroke.content 0 (displayLine "Alice" "2025-01-01 00:00" "hi"),
           Keystroke.content 1 (peerDisplayLine "Peer" "2025-01-01 00:00" "ping"),
           Keystroke.submit 0, Keystroke.submit 1] ∧
    serializedRun
          [Keystroke.content 0 (displayLine "Alice" "2025-01-01 00:00" "hi"),
           Keystroke.content 1 (peerDisplayLine "Peer" "2025-01-01 00:00" "ping"),
           Keystroke.submit 0, Keystroke.submit 1] = false :=
  ⟨Merge.left (Merge.right (Merge.left (Merge.right Merge.nil))), rfl⟩

/-- Claim C1 (amended): each coalesced batch still produces at most one
injection per chat, and each injection is the display line followed by the
submit signal; but the poll loop and the peer bridge listener are NOT
mutually serialized — the code takes no lock, so an interleaving separating
one caller's display line from its submit is possible. -/
theorem c1_amended_single_injection_no_serialization :
    (∀ (ok : Int → Bool) (s s' : LoopState) (batch : List (Update × Env))
       (evs : List Ev) (c : Int),
      processBatch ok s batch = some (s', evs) → (injEvents evs c).length ≤ 1) ∧
    (∀ (caller : Nat) (line : String),
      injectKeys caller line = [Keystroke.content caller line, Keystroke.submit caller]) ∧
    (∃ tr : List Keystroke,
      Merge (injectKeys 0 (displayLine "Alice" "2025-01-01 00:00" "hi"))
            (injectKeys 1 (peerDisplayLine "Peer" "2025-01-01 00:00" "ping")) tr ∧
      serializedRun tr = false) := by
  refine ⟨?_, fun caller line => rfl,
    ⟨_, Merge.left (Merge.right (Merge.left (Merge.right Merge.nil))), rfl⟩⟩
  intro ok s s' batch evs c h
  unfold processBatch at h
  cases hu : processUpdates {s with toInject := []} batch with
  | none => rw [hu] at h; exact absurd h (by simp)
  | some p =>
    obtain ⟨s1, evsU⟩ := p
    rw [hu] at h; dsimp only at h
    simp only [Option.some.injEq, Prod.mk.injEq] at h
    obtain ⟨hs, he⟩ := h
    subst hs; subst he
    obtain ⟨hinj, _, hnd, _⟩ := batch_props hu
    have hndk : (qKeys s1.toInject).Nodup := hnd (by simp [qKeys])
    rw [injEvents_append, hinj c, injEvents_injectPhase ok hndk c]
    cases qGet s1.toInject c <;> simp

/-- Claim C4: starting from an empty registry, the first chat to send a text
message becomes the owner (appended to the allow-list, persisted, `.env`
updated, welcomed); a text message from a second, distinct chat arriving
afterwards is not injected, produces exactly one approval notification to
the owner chat — carrying the new chat's id and display name — and the new
chat is told an administrator has been notified. -/
theorem c4_bootstrap_owner_then_unauthorized
    (off : Option Int) (r : List (Int × List ℤ)) (q : List (Int × String × List String))
    (ok : Int → Bool) (a b uid1 uid2 : Int) (n1 n2 t1 t2 cap1 cap2 : String)
    (att1 att2 : Option Att) (e1 e2 : Env)
    (ht1 : ¬ t1 = "") (ht2 : ¬ t2 = "") (hab : ¬ b = a) :
    processBatch ok ⟨off, [], r, q⟩
        [(⟨uid1, some ⟨a, n1, t1, cap1, att1⟩⟩, e1),
         (⟨uid2, some ⟨b, n2, t2, cap2, att2⟩⟩, e2)] =
      some (⟨some (uid2 + 1), [a], r, []⟩,
        [Ev.saveConfig [a], Ev.send a (welcomeMsg n1 a), Ev.envUpdated a,
         Ev.send a (requestApprovalMsg n2 b), Ev.send b unauthorizedMsg]) ∧
    (∃ pre mid post : String,
      requestApprovalMsg n2 b = pre ++ n2 ++ mid ++ toString b ++ post) := by
  constructor
  · simp [processBatch, processUpdates, stepUpdate, resolveText, processText,
      injectPhase, ht1, ht2, hab]
  · exact ⟨"🔔 New Telegram chat requesting access to Clawdy:\nName: ",
      "\nChat ID: ",
      "\n\nTo allow, add this chat ID to TELEGRAM_ALLOWED_CHATS in .env\nor send: /allow " ++
        toString b,
      by simp [requestApprovalMsg, String.append_assoc]⟩

/-! ## Witnesses: each hypothesis-bearing claim theorem applied at one
concrete input -/

/-- C2 at a concrete batch: chat 42 sends "Hello" then "world" in one batch;
the single injection text is "Hello\n\nworld". -/
theorem c2_witness :
    ∃ snd, injEvents [Ev.queued 42 "Hello", Ev.queued 42 "world",
        Ev.startTyping 42, Ev.injected 42 "Hello\n\nworld" "Al"] 42 =
      [(joinBlank (queuedTexts [Ev.queued 42 "Hello", Ev.queued 42 "world",
        Ev.startTyping 42, Ev.injected 42 "Hello\n\nworld" "Al"] 42), snd)] :=
  @c2_coalesced_batch_single_injection (fun _ => true)
    ⟨none, [42], [], []⟩ ⟨some 3, [42], [(42, [0, 0])], []⟩
    [(⟨1, some ⟨42, "Al", "Hello", "", none⟩⟩, ⟨0, none, none⟩),
     (⟨2, some ⟨42, "Al", "world", "", none⟩⟩, ⟨0, none, none⟩)]
    [Ev.queued 42 "Hello", Ev.queued 42 "world",
     Ev.startTyping 42, Ev.injected 42 "Hello\n\nworld" "Al"] 42
    (by decide) (by decide)

/-- C3 at concrete inputs: one step sets the cursor to id+1; a sorted batch
of ids 3, 4 starting at cursor 3 ends with cursor above both ids. -/
theorem c3_witness :
    ((⟨some 6, [], [], []⟩ : LoopState).offset = some (5 + 1)) ∧
    (∃ o', (⟨some 5, [], [], []⟩ : LoopState).offset = some o' ∧ (3 : Int) ≤ o' ∧
      ∀ i ∈ batchIds [(⟨3, none⟩, ⟨0, none, none⟩), (⟨4, none⟩, ⟨0, none, none⟩)], i < o') :=
  ⟨c3_cursor_monotone_no_revisit.1 ⟨none, [], [], []⟩ ⟨5, none⟩ ⟨0, none, none⟩
      ⟨some 6, [], [], []⟩ [] (by decide),
   c3_cursor_monotone_no_revisit.2
      [(⟨3, none⟩, ⟨0, none, none⟩), (⟨4, none⟩, ⟨0, none, none⟩)]
      ⟨some 3, [], [], []⟩ ⟨some 5, [], [], []⟩ [] 3 (by decide) (by decide) (by decide) (by decide)⟩

/-- C6 at a concrete input: `/allow 7` from allowed chat 5 grows `[5]` to
`[5, 7]` by appending. -/
theorem c6_witness : ∃ app, ([5, 7] : List Int) = [5] ++ app :=
  (c6_allowlist_grows_only.1 ⟨none, [5], [], []⟩
      ⟨4, some ⟨5, "Cy", "/allow 7", "", none⟩⟩ ⟨0, none, none⟩
      ⟨some 5, [5, 7], [], []⟩
      [Ev.saveConfig [5, 7], Ev.send 5 (allowAckMsg "7")] (by decide)).1

/-- C7 (amended) at a concrete input: a text message from unauthorized chat
99 notifies owner chat 1 and the sender. -/
theorem c7_witness :
    stepUpdate ⟨none, [1], [], []⟩ ⟨10, some ⟨99, "Eve", "hello", "", none⟩⟩
        ⟨0, none, none⟩ =
      some (⟨some 11, [1], [], []⟩,
        [Ev.send 1 (requestApprovalMsg "Eve" 99), Ev.send 99 unauthorizedMsg]) :=
  (@c7_unauthorized_text_notifies ⟨none, [1], [], []⟩
      ⟨10, some ⟨99, "Eve", "hello", "", none⟩⟩ ⟨0, none, none⟩
      ⟨99, "Eve", "hello", "", none⟩ (by decide) (by decide) (by decide) (by decide)).1

/-- C8 at a concrete input: a 30 MB attachment from allowed chat 5 yields
only the oversize notification. -/
theorem c8_witness :
    stepUpdate ⟨none, [5], [], []⟩
        ⟨3, some ⟨5, "Cy", "", "", some ⟨"fX", "big.bin", 30000000, false⟩⟩⟩
        ⟨0, some "/tmp/x", none⟩ =
      some (⟨some 4, [5], [], []⟩, [Ev.send 5 (oversizeMsg 30000000)]) :=
  @c8_oversize_rejected_before_download ⟨none, [5], [], []⟩
      ⟨3, some ⟨5, "Cy", "", "", some ⟨"fX", "big.bin", 30000000, false⟩⟩⟩
      ⟨0, some "/tmp/x", none⟩
      ⟨5, "Cy", "", "", some ⟨"fX", "big.bin", 30000000, false⟩⟩
      ⟨"fX", "big.bin", 30000000, false⟩ (by decide) (by decide) (by decide) (by decide) (by decide)

/-- C10 at a concrete input. -/
theorem c10_witness :
    impl_telegram_send "T" (some 1) (fun _ => true) "Hi".toList =
      pyChunks "Hi".toList ∧
    (pyChunks "Hi".toList).flatten = "Hi".toList ∧
    (∀ ch ∈ pyChunks "Hi".toList, ch.length ≤ MAX_LEN ∧ ch ≠ []) :=
  c10_telegram_send_chunking "T" 1 (fun _ => true) "Hi".toList (by decide)
    (fun _ => rfl)

/-- C1 (amended) at a concrete input: a one-update batch for chat 7 yields
at most one injection for chat 7. -/
theorem c1_witness :
    (injEvents [Ev.queued 7 "x", Ev.startTyping 7, Ev.injected 7 "x" "A"] 7).length ≤ 1 :=
  c1_amended_single_injection_no_serialization.1 (fun _ => true)
    ⟨none, [7], [], []⟩ ⟨some 2, [7], [(7, [0])], []⟩
    [(⟨1, some ⟨7, "A", "x", "", none⟩⟩, ⟨0, none, none⟩)]
    [Ev.queued 7 "x", Ev.startTyping 7, Ev.injected 7 "x" "A"] 7 (by decide)

/-- C4 at concrete inputs: chat 7 bootstraps as owner, chat 8 is then
unauthorized. -/
theorem c4_witness :
    processBatch (fun _ => true) ⟨none, [], [], []⟩
        [(⟨1, some ⟨7, "Ann", "hi", "", none⟩⟩, ⟨0, none, none⟩),
         (⟨2, some ⟨8, "Bob", "yo", "", none⟩⟩, ⟨1, none, none⟩)] =
      some (⟨some (2 + 1), [7], [], []⟩,
        [Ev.saveConfig [7], Ev.send 7 (welcomeMsg "Ann" 7), Ev.envUpdated 7,
         Ev.send 7 (requestApprovalMsg "Bob" 8), Ev.send 8 unauthorizedMsg]) ∧
    (∃ pre mid post : String,
      requestApprovalMsg "Bob" 8 = pre ++ "Bob" ++ mid ++ toString 8 ++ post) :=
  c4_bootstrap_owner_then_unauthorized none [] [] (fun _ => true) 7 8 1 2
    "Ann" "Bob" "hi" "yo" "" "" none none ⟨0, none, none⟩ ⟨1, none, none⟩
    (by decide) (by decide) (by decide)

/-- A plain admitted-path text update (nonempty text, not a `/allow`
command, chat on the allow-list) goes straight to the rate limiter: prune
the chat's window to the last 30 seconds, reject with the throttle notice at
5 or more remaining entries, otherwise append the current time and queue the
text. -/
theorem stepUpdate_plain (off : Option Int) (al : List Int) (r : List (Int × List ℤ))
    (q : List (Int × String × List String)) (uid : Int) (chat : Int)
    (snd text cap : String) (att : Option Att) (now : ℤ) (dl tr : Option String)
    (ht : ¬ text = "") (hsw : pyStarts text.data "/allow ".data = false)
    (hmem : chat ∈ al) :
    stepUpdate ⟨off, al, r, q⟩ ⟨uid, some ⟨chat, snd, text, cap, att⟩⟩ ⟨now, dl, tr⟩ =
      (if 5 ≤ ((rateGet r chat).filter (fun t => now - t < 30)).length then
        some (⟨some (uid + 1), al,
               rateSet r chat ((rateGet r chat).filter (fun t => now - t < 30)), q⟩,
              [Ev.send chat throttleMsg])
      else
        some (⟨some (uid + 1), al,
               rateSet r chat (((rateGet r chat).filter (fun t => now - t < 30)) ++ [now]),
               qAppend q chat snd text⟩,
              [Ev.queued chat text])) := by
  have hne : al ≠ [] := by
    intro he
    rw [he] at hmem
    simp at hmem
  simp only [stepUpdate, resolveText, processText, ht, hsw, hmem, hne]
  simp [ht, hsw, hmem, hne]
  split_ifs <;> rfl

/-- Pruning keeps a window whose entries are all within the last 30 seconds. -/
theorem filter_recent_all {L : List ℤ} {now : ℤ} (h : ∀ x ∈ L, now - x < 30) :
    L.filter (fun t => now - t < 30) = L :=
  List.filter_eq_self.mpr (fun x hx => by simpa using h x hx)

/-- Claim C5: six admitted-path messages from one allowed chat within a
10-second span, arriving in one batch over a fresh rate window: the first
five are queued, the sixth gets the throttle notice and is neither queued
nor part of the single injection (which joins exactly the first five
texts). -/
theorem c5_rate_limit_six_messages
    (off : Option Int) (al : List Int) (r : List (Int × List ℤ))
    (q : List (Int × String × List String)) (ok : Int → Bool) (c : Int)
    (uid1 uid2 uid3 uid4 uid5 uid6 : Int)
    (sn1 sn2 sn3 sn4 sn5 sn6 t1 t2 t3 t4 t5 t6 : String)
    (cp1 cp2 cp3 cp4 cp5 cp6 : String) (at1 at2 at3 at4 at5 at6 : Option Att)
    (n1 n2 n3 n4 n5 n6 : ℤ)
    (dl1 dl2 dl3 dl4 dl5 dl6 tr1 tr2 tr3 tr4 tr5 tr6 : Option String)
    (hmem : c ∈ al) (hr0 : rateGet r c = [])
    (ht1 : ¬ t1 = "") (ht2 : ¬ t2 = "") (ht3 : ¬ t3 = "")
    (ht4 : ¬ t4 = "") (ht5 : ¬ t5 = "") (ht6 : ¬ t6 = "")
    (hw1 : pyStarts t1.data "/allow ".data = false)
    (hw2 : pyStarts t2.data "/allow ".data = false)
    (hw3 : pyStarts t3.data "/allow ".data = false)
    (hw4 : pyStarts t4.data "/allow ".data = false)
    (hw5 : pyStarts t5.data "/allow ".data = false)
    (hw6 : pyStarts t6.data "/allow ".data = false)
    (h12 : n1 ≤ n2) (h23 : n2 ≤ n3) (h34 : n3 ≤ n4) (h45 : n4 ≤ n5) (h56 : n5 ≤ n6)
    (hspan : n6 - n1 ≤ 10)
    {sF : LoopState} {evsF : List Ev}
    (hrun : processBatch ok ⟨off, al, r, q⟩
        [(⟨uid1, some ⟨c, sn1, t1, cp1, at1⟩⟩, ⟨n1, dl1, tr1⟩),
         (⟨uid2, some ⟨c, sn2, t2, cp2, at2⟩⟩, ⟨n2, dl2, tr2⟩),
         (⟨uid3, some ⟨c, sn3, t3, cp3, at3⟩⟩, ⟨n3, dl3, tr3⟩),
         (⟨uid4, some ⟨c, sn4, t4, cp4, at4⟩⟩, ⟨n4, dl4, tr4⟩),
         (⟨uid5, some ⟨c, sn5, t5, cp5, at5⟩⟩, ⟨n5, dl5, tr5⟩),
         (⟨uid6, some ⟨c, sn6, t6, cp6, at6⟩⟩, ⟨n6, dl6, tr6⟩)] = some (sF, evsF)) :
    queuedTexts evsF c = [t1, t2, t3, t4, t5] ∧
    countEv evsF (Ev.send c throttleMsg) = 1 ∧
    injEvents evsF c = [(joinBlank [t1, t2, t3, t4, t5], sn1)] := by
  have w1 : (rateGet r c).filter (fun t => n1 - t < 30) = [] := by
    rw [hr0]
    rfl
  have e1 : stepUpdate ⟨off, al, r, []⟩ ⟨uid1, some ⟨c, sn1, t1, cp1, at1⟩⟩ ⟨n1, dl1, tr1⟩ =
      some (⟨some (uid1 + 1), al, rateSet r c [n1], [(c, sn1, [t1])]⟩, [Ev.queued c t1]) := by
    rw [stepUpdate_plain off al r [] uid1 c sn1 t1 cp1 at1 n1 dl1 tr1 ht1 hw1 hmem, w1]
    simp [qAppend]
  have g2 : rateGet (rateSet r c [n1]) c = [n1] := by
    rw [rateGet_rateSet]
    simp
  have w2 : List.filter (fun t => n2 - t < 30) [n1] = [n1] := by
    refine filter_recent_all ?_
    intro x hx
    simp at hx
    subst hx
    omega
  have e2 : stepUpdate ⟨some (uid1 + 1), al, rateSet r c [n1], [(c, sn1, [t1])]⟩
        ⟨uid2, some ⟨c, sn2, t2, cp2, at2⟩⟩ ⟨n2, dl2, tr2⟩ =
      some (⟨some (uid2 + 1), al, rateSet (rateSet r c [n1]) c [n1, n2],
             [(c, sn1, [t1, t2])]⟩, [Ev.queued c t2]) := by
    rw [stepUpdate_plain (some (uid1 + 1)) al (rateSet r c [n1]) [(c, sn1, [t1])]
        uid2 c sn2 t2 cp2 at2 n2 dl2 tr2 ht2 hw2 hmem, g2, w2]
    simp [qAppend]
  have g3 : rateGet (rateSet (rateSet r c [n1]) c [n1, n2]) c = [n1, n2] := by
    rw [rateGet_rateSet]
    simp
  have w3 : List.filter (fun t => n3 - t < 30) [n1, n2] = [n1, n2] := by
    refine filter_recent_all ?_
    intro x hx
    rcases List.mem_cons.mp hx with rfl | hx <;> simp at * <;> omega
  have e3 : stepUpdate ⟨some (uid2 + 1), al, rateSet (rateSet r c [n1]) c [n1, n2],
        [(c, sn1, [t1, t2])]⟩ ⟨uid3, some ⟨c, sn3, t3, cp3, at3⟩⟩ ⟨n3, dl3, tr3⟩ =
      some (⟨some (uid3 + 1), al,
             rateSet (rateSet (rateSet r c [n1]) c [n1, n2]) c [n1, n2, n3],
             [(c, sn1, [t1, t2, t3])]⟩, [Ev.queued c t3]) := by
    rw [stepUpdate_plain (some (uid2 + 1)) al (rateSet (rateSet r c [n1]) c [n1, n2])
        [(c, sn1, [t1, t2])] uid3 c sn3 t3 cp3 at3 n3 dl3 tr3 ht3 hw3 hmem, g3, w3]
    simp [qAppend]
  have g4 : rateGet (rateSet (rateSet (rateSet r c [n1]) c [n1, n2]) c [n1, n2, n3]) c =
      [n1, n2, n3] := by
    rw [rateGet_rateSet]
    simp
  have w4 : List.filter (fun t => n4 - t < 30) [n1, n2, n3] = [n1, n2, n3] := by
    refine filter_recent_all ?_
    intro x hx
    simp at hx
    rcases hx with rfl | rfl | rfl <;> omega
  have e4 : stepUpdate ⟨some (uid3 + 1), al,
        rateSet (rateSet (rateSet r c [n1]) c [n1, n2]) c [n1, n2, n3],
        [(c, sn1, [t1, t2, t3])]⟩ ⟨uid4, some ⟨c, sn4, t4, cp4, at4⟩⟩ ⟨n4, dl4, tr4⟩ =
      some (⟨some (uid4 + 1), al,
             rateSet (rateSet (rateSet (rateSet r c [n1]) c [n1, n2]) c [n1, n2, n3]) c
               [n1, n2, n3, n4],
             [(c, sn1, [t1, t2, t3, t4])]⟩, [Ev.queued c t4]) := by
    rw [stepUpdate_plain (some (uid3 + 1)) al
        (rateSet (rateSet (rateSet r c [n1]) c [n1, n2]) c [n1, n2, n3])
        [(c, sn1, [t1, t2, t3])] uid4 c sn4 t4 cp4 at4 n4 dl4 tr4 ht4 hw4 hmem, g4, w4]
    simp [qAppend]
  have g5 : rateGet (rateSet (rateSet (rateSet (rateSet r c [n1]) c [n1, n2]) c
        [n1, n2, n3]) c [n1, n2, n3, n4]) c = [n1, n2, n3, n4] := by
    rw [rateGet_rateSet]
    simp
  have w5 : List.filter (fun t => n5 - t < 30) [n1, n2, n3, n4] = [n1, n2, n3, n4] := by
    refine filter_recent_all ?_
    intro x hx
    simp at hx
    rcases hx with rfl | rfl | rfl | rfl <;> omega
  have e5 : stepUpdate ⟨some (uid4 + 1), al,
        rateSet (rateSet (rateSet (rateSet r c [n1]) c [n1, n2]) c [n1, n2, n3]) c
          [n1, n2, n3, n4],
        [(c, sn1, [t1, t2, t3, t4])]⟩ ⟨uid5, some ⟨c, sn5, t5, cp5, at5⟩⟩ ⟨n5, dl5, tr5⟩ =
      some (⟨some (uid5 + 1), al,
             rateSet (rateSet (rateSet (rateSet (rateSet r c [n1]) c [n1, n2]) c
               [n1, n2, n3]) c [n1, n2, n3, n4]) c [n1, n2, n3, n4, n5],
             [(c, sn1, [t1, t2, t3, t4, t5])]⟩, [Ev.queued c t5]) := by
    rw [stepUpdate_plain (some (uid4 + 1)) al
        (rateSet (rateSet (rateSet (rateSet r c [n1]) c [n1, n2]) c [n1, n2, n3]) c
          [n1, n2, n3, n4])
        [(c, sn1, [t1, t2, t3, t4])] uid5 c sn5 t5 cp5 at5 n5 dl5 tr5 ht5 hw5 hmem, g5, w5]
    simp [qAppend]
  have g6 : rateGet (rateSet (rateSet (rateSet (rateSet (rateSet r c [n1]) c [n1, n2]) c
        [n1, n2, n3]) c [n1, n2, n3, n4]) c [n1, n2, n3, n4, n5]) c =
      [n1, n2, n3, n4, n5] := by
    rw [rateGet_rateSet]
    simp
  have w6 : List.filter (fun t => n6 - t < 30) [n1, n2, n3, n4, n5] =
      [n1, n2, n3, n4, n5] := by
    refine filter_recent_all ?_
    intro x hx
    simp at hx
    rcases hx with rfl | rfl | rfl | rfl | rfl <;> omega
  have e6 : stepUpdate ⟨some (uid5 + 1), al,
        rateSet (rateSet (rateSet (rateSet (rateSet r c [n1]) c [n1, n2]) c
          [n1, n2, n3]) c [n1, n2, n3, n4]) c [n1, n2, n3, n4, n5],
        [(c, sn1, [t1, t2, t3, t4, t5])]⟩ ⟨uid6, some ⟨c, sn6, t6, cp6, at6⟩⟩ ⟨n6, dl6, tr6⟩ =
      some (⟨some (uid6 + 1), al,
             rateSet (rateSet (rateSet (rateSet (rateSet (rateSet r c [n1]) c [n1, n2]) c
               [n1, n2, n3]) c [n1, n2, n3, n4]) c [n1, n2, n3, n4, n5]) c
               [n1, n2, n3, n4, n5],
             [(c, sn1, [t1, t2, t3, t4, t5])]⟩, [Ev.send c throttleMsg]) := by
    rw [stepUpdate_plain (some (uid5 + 1)) al
        (rateSet (rateSet (rateSet (rateSet (rateSet r c [n1]) c [n1, n2]) c
          [n1, n2, n3]) c [n1, n2, n3, n4]) c [n1, n2, n3, n4, n5])
        [(c, sn1, [t1, t2, t3, t4, t5])] uid6 c sn6 t6 cp6 at6 n6 dl6 tr6 ht6 hw6 hmem,
        g6, w6]
    simp
  unfold processBatch at hrun
  dsimp only at hrun
  simp only [processUpdates] at hrun
  rw [e1] at hrun
  dsimp only at hrun
  rw [e2] at hrun
  dsimp only at hrun
  rw [e3] at hrun
  dsimp only at hrun
  rw [e4] at hrun
  dsimp only at hrun
  rw [e5] at hrun
  dsimp only at hrun
  rw [e6] at hrun
  dsimp only at hrun
  simp only [List.singleton_append, List.append_nil] at hrun
  simp only [Option.some.injEq, Prod.mk.injEq] at hrun
  obtain ⟨hs, he⟩ := hrun
  subst he
  have hmsgne : ¬ (injectFailMsg = throttleMsg) := by decide
  refine ⟨?_, ?_, ?_⟩
  · rw [queuedTexts_append, queuedTexts_injectPhase]
    simp [queuedTexts]
  · rw [countEv_append]
    have hpart1 : countEv [Ev.queued c t1, Ev.queued c t2, Ev.queued c t3, Ev.queued c t4,
        Ev.queued c t5, Ev.send c throttleMsg] (Ev.send c throttleMsg) = 1 := by
      simp [countEv]
    rw [hpart1]
    cases hok : ok c <;>
      simp [injectPhase, countEv, hok, hmsgne]
  · rw [injEvents_append]
    cases hok : ok c <;>
      simp [injEvents, injectPhase, hok]

/-- C5 at concrete inputs: six messages from chat 42 at seconds
0, 2, 4, 6, 8, 10 — the first five are queued and injected once, the sixth
only draws the throttle notice. -/
theorem c5_witness :
    queuedTexts [Ev.queued 42 "m1", Ev.queued 42 "m2", Ev.queued 42 "m3",
        Ev.queued 42 "m4", Ev.queued 42 "m5", Ev.send 42 throttleMsg,
        Ev.startTyping 42, Ev.injected 42 "m1\n\nm2\n\nm3\n\nm4\n\nm5" "A"] 42 =
      ["m1", "m2", "m3", "m4", "m5"] ∧
    countEv [Ev.queued 42 "m1", Ev.queued 42 "m2", Ev.queued 42 "m3",
        Ev.queued 42 "m4", Ev.queued 42 "m5", Ev.send 42 throttleMsg,
        Ev.startTyping 42, Ev.injected 42 "m1\n\nm2\n\nm3\n\nm4\n\nm5" "A"]
      (Ev.send 42 throttleMsg) = 1 ∧
    injEvents [Ev.queued 42 "m1", Ev.queued 42 "m2", Ev.queued 42 "m3",
        Ev.queued 42 "m4", Ev.queued 42 "m5", Ev.send 42 throttleMsg,
        Ev.startTyping 42, Ev.injected 42 "m1\n\nm2\n\nm3\n\nm4\n\nm5" "A"] 42 =
      [(joinBlank ["m1", "m2", "m3", "m4", "m5"], "A")] :=
  @c5_rate_limit_six_messages none [42] [] [] (fun _ => true) 42 1 2 3 4 5 6
    "A" "A" "A" "A" "A" "A" "m1" "m2" "m3" "m4" "m5" "m6" "" "" "" "" "" ""
    none none none none none none 0 2 4 6 8 10
    none none none none none none none none none none none none
    (by decide) (by decide)
    (by decide) (by decide) (by decide) (by decide) (by decide) (by decide)
    (by decide) (by decide) (by decide) (by decide) (by decide) (by decide)
    (by decide) (by decide) (by decide) (by decide) (by decide) (by decide)
    ⟨some 7, [42], [(42, [0, 2, 4, 6, 8])], []⟩
    [Ev.queued 42 "m1", Ev.queued 42 "m2", Ev.queued 42 "m3",
     Ev.queued 42 "m4", Ev.queued 42 "m5", Ev.send 42 throttleMsg,
     Ev.startTyping 42, Ev.injected 42 "m1\n\nm2\n\nm3\n\nm4\n\nm5" "A"]
    (by decide)

end EasyClaw
